import Mathlib

/-!
Shallow embedding of the resampling / labelling / segmentation core of the
SPC-Runaway_Classifier repository.

Numbers are modelled exactly: python/numpy floats become `ℚ` where the code
is plain arithmetic, and `ℝ` where scipy's Gaussian smoothing (which uses
`exp`) is involved.  numpy's NaN for the disruption time is modelled as
`Option ℚ` (`none` = NaN).
-/

namespace SPC

/-- `np.arange(b, e, step)` for a positive step: the points `b + i * step`
for `0 ≤ i < ⌈(e - b) / step⌉`.  (`step = 0` raises in numpy; here division
by zero gives an empty list, and all theorems assume `0 < step`.) -/
def np_arange (b e step : ℚ) : List ℚ :=
  (List.range (Int.toNat ⌈(e - b) / step⌉)).map (fun (i : ℕ) => b + (i : ℚ) * step)

/-- `np.linspace(b, e, n)` with the default inclusive endpoint: `n` evenly
spaced points from `b` to `e`. -/
def np_linspace (b e : ℚ) (n : ℕ) : List ℚ :=
  if n = 1 then [b]
  else (List.range n).map (fun (i : ℕ) => b + (i : ℚ) * (e - b) / ((n : ℚ) - 1))

/-- `np.interp(x, xp, fp)` on the paired list `zip xp fp`, for an
increasing `xp` (the only case numpy documents): clamp below the first
node and above the last node, linear interpolation in between, and at a
node the node's own value. -/
def np_interp (x : ℚ) : List (ℚ × ℚ) → ℚ
  | [] => 0
  | [(_, f0)] => f0
  | (x0, f0) :: (x1, f1) :: rest =>
      if x < x0 then f0
      else if x ≤ x1 then f0 + (f1 - f0) * (x - x0) / (x1 - x0)
      else np_interp x ((x1, f1) :: rest)

/-- The boolean mask filter `time[mask], signal[mask]` with
`mask = (time >= b) & (time <= e)`, on the paired series. -/
def filterInRange (b e : ℚ) (t s : List ℚ) : List (ℚ × ℚ) :=
  (t.zip s).filter (fun p => decide (b ≤ p.1 ∧ p.1 ≤ e))

/-- Mean of a list of rationals (`Series.mean` of a non-empty group). -/
def listMean (l : List ℚ) : ℚ := l.sum / l.length

/-- `pd.cut(x, bins, labels=False, include_lowest=True)` for an `x` inside
the binned range: the bin index is the number of bin edges after the first
that are strictly below `x` (intervals `(bins[i], bins[i+1]]`, with the
lowest interval closed on the left). -/
def binIndex (bins : List ℚ) (x : ℚ) : ℕ :=
  ((bins.drop 1).filter (fun bj => decide (bj < x))).length

/-- `downsample_timeseries` of `Processing_Data/downsampling.py` (binned
variant): filter `(time, signal)` to `[b, e]`, grid of `length` points by
`linspace`, `length` bins, assign each sample to a bin, and return the grid
together with the per-nonempty-bin means (`groupby('bin').mean()`, keys
sorted ascending, empty bins absent). -/
def downsample_timeseries_bins (b e : ℚ) (t s : List ℚ) (length : ℕ) :
    List ℚ × List ℚ :=
  let fp := filterInRange b e t s
  let downsampled_time := np_linspace b e length
  let bins := np_linspace b e (length + 1)
  let labeled := fp.map (fun p => (binIndex bins p.1, p.2))
  let usedBins := (List.range (length + 1)).filter
    (fun i => labeled.any (fun p => decide (p.1 = i)))
  let downsampled_signal := usedBins.map
    (fun i => listMean ((labeled.filter (fun p => decide (p.1 = i))).map Prod.snd))
  (downsampled_time, downsampled_signal)

/-- `np.abs` on one value. -/
def rabs (x : ℚ) : ℚ := if x < 0 then -x else x

/-- `np.argmin(|t - c|)`: index of the first element of `t` closest to `c`
(numpy's argmin keeps the first of tied minima).  Running accumulator:
`i` the index of the next element, `bv`/`best` the current best distance
and its index. -/
def argminAbsAux (c : ℚ) : List ℚ → ℕ → ℚ → ℕ → ℕ
  | [], _, _, best => best
  | x :: xs, i, bv, best =>
      if rabs (x - c) < bv then argminAbsAux c xs (i + 1) (rabs (x - c)) i
      else argminAbsAux c xs (i + 1) bv best

/-- `np.argmin(np.abs(t - c))` (0 on the empty array, where numpy raises). -/
def argminAbs (t : List ℚ) (c : ℚ) : ℕ :=
  match t with
  | [] => 0
  | x :: xs => argminAbsAux c xs 1 (rabs (x - c)) 0

/-- Python list slice `y[a:b]` (clamping, empty when `b ≤ a`). -/
def pySlice (y : List ℚ) (a b : ℕ) : List ℚ := (y.drop a).take (b - a)

/-- `Edward` of `src/PDF.py`: cut `y` at the samples of `t` nearest to each
cut time, slicing from the running start index; the last segment is the
remainder `y[start:]`. -/
def Edward (y t : List ℚ) : List ℚ → ℕ → List (List ℚ)
  | [], start => [y.drop start]
  | c :: cs, start =>
      pySlice y start (argminAbs t c + 1) :: Edward y t cs (argminAbs t c + 1)

/-- `Edward(y, t, t_c)` as called (start index 0). -/
def EdwardRun (y t tc : List ℚ) : List (List ℚ) := Edward y t tc 0

/-- `Edward` of `src/Download_single_files/PDF.py` (array-aware variant):
additionally raises `ValueError` when a cut point lies outside
`[t[0], t[-1]]`; returns both the value segments and the time segments. -/
def EdwardChecked (y t : List ℚ) : List ℚ → ℕ →
    Except String (List (List ℚ) × List (List ℚ))
  | [], start => .ok ([y.drop start], [t.drop start])
  | c :: cs, start =>
      if c < t.headD 0 ∨ c > t.getLastD 0 then
        .error "Cut point is out of bounds for t."
      else
        match EdwardChecked y t cs (argminAbs t c + 1) with
        | .error msg => .error msg
        | .ok (ys, ts) =>
            .ok (pySlice y start (argminAbs t c + 1) :: ys,
                 pySlice t start (argminAbs t c + 1) :: ts)

/-- `EdwardChecked` as called (start index 0). -/
def EdwardCheckedRun (y t tc : List ℚ) :
    Except String (List (List ℚ) × List (List ℚ)) :=
  EdwardChecked y t tc 0

/-- `lw = int(truncate * sigma + 0.5)` of `scipy.ndimage.gaussian_filter1d`
with the default `truncate = 4.0`: the half width of the kernel. -/
def gaussLw (sigma : ℚ) : ℕ := (⌊4 * sigma + 1 / 2⌋ : ℤ).toNat

/-- Unnormalised Gaussian kernel value `exp(-0.5 * o² / sigma²)` at offset
`o` (scipy `_gaussian_kernel1d`, order 0). -/
noncomputable def gaussKernelRaw (sigma : ℚ) (o : ℤ) : ℝ :=
  Real.exp (-((o : ℝ) ^ 2) / (2 * (sigma : ℝ) ^ 2))

/-- Normalisation constant: the sum of the raw kernel over offsets
`-lw … lw`. -/
noncomputable def gaussZ (sigma : ℚ) : ℝ :=
  ∑ j ∈ Finset.range (2 * gaussLw sigma + 1),
    gaussKernelRaw sigma ((j : ℤ) - gaussLw sigma)

/-- Normalised kernel weight at offset `o`. -/
noncomputable def gaussWeight (sigma : ℚ) (o : ℤ) : ℝ :=
  gaussKernelRaw sigma o / gaussZ sigma

/-- scipy's `reflect` boundary mode `(d c b a | a b c d | d c b a)`:
fold an arbitrary integer index into `[0, n)`. -/
def reflectIdx (n : ℕ) (i : ℤ) : ℕ :=
  let m := i.emod (2 * n)
  (if m < n then m else 2 * n - 1 - m).toNat

/-- `scipy.ndimage.gaussian_filter1d(a, sigma)` with the default
`mode='reflect'`, `truncate=4.0`, order 0: correlate with the normalised
symmetric Gaussian kernel, reflecting at the boundary. -/
noncomputable def gaussian_filter1d (sigma : ℚ) (a : List ℝ) : List ℝ :=
  (List.range a.length).map (fun (i : ℕ) =>
    ∑ j ∈ Finset.range (2 * gaussLw sigma + 1),
      gaussWeight sigma ((j : ℤ) - gaussLw sigma) *
        a.getD (reflectIdx a.length ((i : ℤ) + ((j : ℤ) - gaussLw sigma))) 0)

/-- `downsample_timeseries` of `Server_Scripts/remote_processing_csv.py`:
raise when `end_time <= begin_time`; grid `np.arange(b, e, step)`; filter
`(time, signal)` to `[b, e]`; if nothing remains return the grid with
zeros; otherwise interpolate onto the grid and apply Gaussian smoothing.
(The python code requires `len(time) == len(signal)`; the `zip` in
`filterInRange` silently truncates instead, so theorems assume equal
lengths.) -/
noncomputable def downsample_timeseries_csv (b e : ℚ) (t s : List ℚ)
    (step sigma : ℚ) : Except String (List ℚ × List ℝ) :=
  if e ≤ b then .error "end_time must be greater than begin_time"
  else if (filterInRange b e t s).isEmpty then
    .ok (np_arange b e step, List.replicate (np_arange b e step).length 0)
  else
    .ok (np_arange b e step,
      gaussian_filter1d sigma ((np_arange b e step).map
        (fun x => ((np_interp x (filterInRange b e t s) : ℚ) : ℝ))))

/-- One channel of a shot: paired `time` and `signal` arrays. -/
structure ChannelSeries where
  time : List ℚ
  signal : List ℚ

/-- A shot record as consumed by `downsample_and_merge`:
`disr_ipla_td` (`none` models NaN), the `Ramp_up` interval, and the
channel dictionary. -/
structure Shot where
  disr_ipla_td : Option ℚ
  Ramp_up : ℚ × ℚ
  channels : List (String × ChannelSeries)

/-- A pandas DataFrame with a `time` column: a list of rows
`(time, feature values)`. -/
abbrev Frame := List (ℚ × List ℝ)

/-- `pd.merge(A, B, on='time', how='inner')`: for each row of `A`, the
rows of `B` with the same time, values concatenated. -/
def mergeInner (A B : Frame) : Frame :=
  A.flatMap (fun r => (B.filter (fun q => decide (q.1 = r.1))).map
    (fun q => (r.1, r.2 ++ q.2)))

/-- One loop iteration of `downsample_and_merge`: skip a missing or empty
channel, otherwise resample it over `[d - 1, d + 5)` (with the default
`sigma = 2`) and inner-join the resulting two-column frame into the
accumulator. -/
noncomputable def downsample_merge_step (d step : ℚ) (shot : Shot)
    (merged : Frame) (key : String) : Except String Frame :=
  match shot.channels.lookup key with
  | none => .ok merged
  | some ch =>
    if ch.time = [] ∨ ch.signal = [] then .ok merged
    else
      match downsample_timeseries_csv (d - 1) (d + 5) ch.time ch.signal
          step 2 with
      | .error msg => .error msg
      | .ok r =>
        .ok (if merged.isEmpty then (r.1.zip r.2).map (fun p => (p.1, [p.2]))
             else mergeInner merged ((r.1.zip r.2).map (fun p => (p.1, [p.2]))))

/-- `downsample_and_merge` of `Server_Scripts/remote_processing_csv.py`:
return an empty table when the disruption time is NaN or precedes the end
of ramp-up; otherwise resample every available channel onto the window
`[d - 1, d + 5)` and inner-join the per-channel frames on `time`. -/
noncomputable def downsample_and_merge (shot : Shot) (keys : List String)
    (step : ℚ) : Except String Frame :=
  match shot.disr_ipla_td with
  | none => .ok []
  | some d =>
    if d < shot.Ramp_up.2 then .ok []
    else keys.foldlM (downsample_merge_step d step shot) []

/-- `Except.ok` test (python: the call returns instead of raising). -/
def exceptOk {ε α : Type} : Except ε α → Bool
  | .ok _ => true
  | .error _ => false

/-- The target computation of `save_re_targets`
(`src/Processing_Data/create_labels.py`): `target = np.zeros(len(time))`
followed by `target[(time > start) & (time < end)] = 1`. -/
def save_re_targets_core (time : List ℚ) (start e : ℚ) : List ℚ :=
  ((List.replicate time.length (0 : ℚ)).zip
      (time.map (fun x => decide (start < x) && decide (x < e)))).map
    (fun p => if p.2 then 1 else p.1)

/-! ### Helper lemmas -/

/-- The masked assignment equals a pointwise map over the time axis. -/
theorem save_re_targets_core_eq_map (time : List ℚ) (start e : ℚ) :
    save_re_targets_core time start e =
      time.map (fun x => if start < x ∧ x < e then 1 else 0) := by
  induction time with
  | nil => rfl
  | cons x xs ih =>
      simp only [save_re_targets_core, List.length_cons, List.replicate_succ,
        List.map_cons, List.zip_cons_cons] at *
      by_cases h1 : start < x <;> by_cases h2 : x < e <;>
        simp [h1, h2, ih]

/-- Python slices `y[a:b] ++ y[b:] = y[a:]` when `a ≤ b`. -/
theorem pySlice_append_drop (y : List ℚ) (a b : ℕ) (hab : a ≤ b) :
    pySlice y a b ++ y.drop b = y.drop a := by
  have hd : y.drop b = (y.drop a).drop (b - a) := by
    rw [List.drop_drop, Nat.add_sub_cancel' hab]
  rw [pySlice, hd, List.take_append_drop]

/-- `Edward` always produces one segment more than there are cut points. -/
theorem edward_length (y t : List ℚ) :
    ∀ (tc : List ℚ) (start : ℕ), (Edward y t tc start).length = tc.length + 1 := by
  intro tc
  induction tc with
  | nil => intro start; rfl
  | cons c cs ih => intro start; simp [Edward, ih]

/-- When the snapped indices are nondecreasing and the start index is at
most one past the first snap, the segments tile `y.drop start`. -/
theorem edward_flatten (y t : List ℚ) :
    ∀ (tc : List ℚ) (start : ℕ),
      (tc.map (argminAbs t)).Chain' (· ≤ ·) →
      (∀ c ∈ tc.head?, start ≤ argminAbs t c + 1) →
      (Edward y t tc start).flatten = y.drop start := by
  intro tc
  induction tc with
  | nil => intro start _ _; simp [Edward]
  | cons c cs ih =>
      intro start hchain hhead
      have hstart : start ≤ argminAbs t c + 1 := hhead c rfl
      rw [List.map_cons, List.chain'_cons'] at hchain
      have hrec : (Edward y t cs (argminAbs t c + 1)).flatten =
          y.drop (argminAbs t c + 1) := by
        refine ih _ hchain.2 ?_
        intro c' hc'
        have : argminAbs t c ≤ argminAbs t c' := by
          refine hchain.1 (argminAbs t c') ?_
          rw [List.head?_map, hc']
          rfl
        omega
      simp only [Edward, List.flatten_cons, hrec]
      exact pySlice_append_drop y start (argminAbs t c + 1) hstart

/-- In-range cut points never raise in the array-aware `Edward`. -/
theorem edward_checked_ok (y t : List ℚ) :
    ∀ (tc : List ℚ) (start : ℕ),
      (∀ c ∈ tc, t.headD 0 ≤ c ∧ c ≤ t.getLastD 0) →
      exceptOk (EdwardChecked y t tc start) = true := by
  intro tc
  induction tc with
  | nil => intro start _; rfl
  | cons c cs ih =>
      intro start hin
      have hc := hin c (List.mem_cons_self c cs)
      have hg : ¬(c < t.headD 0 ∨ c > t.getLastD 0) := by
        push_neg
        exact ⟨hc.1, hc.2⟩
      have hrec := ih (argminAbs t c + 1)
        (fun c' h' => hin c' (List.mem_cons_of_mem _ h'))
      simp only [EdwardChecked, if_neg hg]
      cases hE : EdwardChecked y t cs (argminAbs t c + 1) with
      | error msg => rw [hE] at hrec; exact absurd hrec (by simp [exceptOk])
      | ok p => cases p with | mk ys ts => simp [exceptOk]

/-- An out-of-range cut point always raises in the array-aware `Edward`. -/
theorem edward_checked_err (y t : List ℚ) :
    ∀ (tc : List ℚ) (start : ℕ),
      (∃ c ∈ tc, c < t.headD 0 ∨ t.getLastD 0 < c) →
      exceptOk (EdwardChecked y t tc start) = false := by
  intro tc
  induction tc with
  | nil => rintro start ⟨c, hc, -⟩; cases hc
  | cons c cs ih =>
      rintro start ⟨c', hc', hout⟩
      by_cases hg : c < t.headD 0 ∨ c > t.getLastD 0
      · simp only [EdwardChecked]
        rw [if_pos hg]
        rfl
      · rcases List.mem_cons.mp hc' with rfl | hmem
        · exact absurd hout hg
        · have hrec := ih (argminAbs t c + 1) ⟨c', hmem, hout⟩
          simp only [EdwardChecked, if_neg hg]
          cases hE : EdwardChecked y t cs (argminAbs t c + 1) with
          | error msg => simp [exceptOk]
          | ok p =>
              rw [hE] at hrec
              exact absurd hrec (by cases p with | mk ys ts => simp [exceptOk])

/-- The Gaussian filter preserves length. -/
theorem gaussian_filter1d_length (sigma : ℚ) (a : List ℝ) :
    (gaussian_filter1d sigma a).length = a.length := by
  unfold gaussian_filter1d
  rw [List.length_map, List.length_range]

/-- Shape of a successful csv-variant resample: the time axis is exactly
`np.arange(b, e, step)` (independent of the data) and the two outputs have
equal length. -/
theorem downsample_csv_ok_shape (b e step sigma : ℚ) (t s : List ℚ)
    (r : List ℚ × List ℝ)
    (hr : downsample_timeseries_csv b e t s step sigma = .ok r) :
    r.1 = np_arange b e step ∧ r.1.length = r.2.length := by
  unfold downsample_timeseries_csv at hr
  split_ifs at hr with h1 h2
  all_goals cases hr
  all_goals
    first
      | exact ⟨rfl, (List.length_replicate _ _).symm⟩
      | exact ⟨rfl, by rw [gaussian_filter1d_length, List.length_map]⟩

/-- A resample over a nonempty window never raises. -/
theorem downsample_csv_isOk (b e step sigma : ℚ) (t s : List ℚ) (hbe : b < e) :
    exceptOk (downsample_timeseries_csv b e t s step sigma) = true := by
  unfold downsample_timeseries_csv
  rw [if_neg (not_le.mpr hbe)]
  split <;> rfl

/-! ### The claims -/

/-- C2 (counterexample): on `time_axis = [0,1,2,3,4,5]` with window `(1,4)`
the code does NOT produce `[0,0,1,1,1,0]` — with strict inequalities on
both ends the sample at `4` gets label `0`, so the spec's example row
contradicts its own boundary rule. -/
theorem save_re_targets_spec_example_false :
    save_re_targets_core [0, 1, 2, 3, 4, 5] 1 4 ≠ [0, 0, 1, 1, 1, 0] := by
  decide

/-- C2 (amended): the Label Builder sets `target[i] = 1` exactly where
`start < time_axis[i] < end` (strict on both ends) and `0` elsewhere —
it equals the pointwise indicator map — and on `time_axis = [0,1,2,3,4,5]`
with window `(1,4)` the target is `[0,0,1,1,0,0]`. -/
theorem save_re_targets_strict_window (time : List ℚ) (start e : ℚ) :
    save_re_targets_core time start e =
      time.map (fun x => if start < x ∧ x < e then 1 else 0) ∧
    save_re_targets_core [0, 1, 2, 3, 4, 5] 1 4 = [0, 0, 1, 1, 0, 0] :=
  ⟨save_re_targets_core_eq_map time start e, by decide⟩

/-- C7 (counterexample): with out-of-order cut times the segments do not
concatenate back to the input: `Edward([10,20,30], t=[1,2,3], t_c=[3,1])`
returns `[[10,20,30],[],[20,30]]`, whose concatenation repeats elements. -/
theorem edward_concat_counterexample :
    EdwardRun [10, 20, 30] [1, 2, 3] [3, 1] = [[10, 20, 30], [], [20, 30]] ∧
    (EdwardRun [10, 20, 30] [1, 2, 3] [3, 1]).flatten ≠ [10, 20, 30] := by
  norm_num [EdwardRun, Edward, argminAbs, argminAbsAux, rabs, pySlice]
  simp

/-- C7 (amended): the Segmenter always returns `len(t_c) + 1` segments,
and when the snapped indices `argmin |t - c|` are nondecreasing along the
cut list (in particular for sorted cut times over a sorted time array) the
concatenation of the segments equals the original input exactly. -/
theorem edward_segment_count_concat (y t tc : List ℚ) (_ht : t ≠ [])
    (hmono : (tc.map (argminAbs t)).Chain' (· ≤ ·)) :
    (EdwardRun y t tc).length = tc.length + 1 ∧
    (EdwardRun y t tc).flatten = y := by
  refine ⟨edward_length y t tc 0, ?_⟩
  have h := edward_flatten y t tc 0 hmono (by intro c _; omega)
  simpa using h

/-- C7 (witness). -/
theorem edward_segment_count_concat_witness :
    (([(0 : ℚ), 1, 2] : List ℚ) ≠ [] ∧
      (([(0 : ℚ), 2] : List ℚ).map (argminAbs [0, 1, 2])).Chain' (· ≤ ·)) ∧
    ((EdwardRun [1, 2, 3] [0, 1, 2] [0, 2]).length = 2 + 1 ∧
      (EdwardRun [1, 2, 3] [0, 1, 2] [0, 2]).flatten = [1, 2, 3]) :=
  ⟨⟨by decide, by
      have hm : ([(0 : ℚ), 2] : List ℚ).map (argminAbs [0, 1, 2]) = [0, 2] := by
        norm_num [argminAbs, argminAbsAux, rabs]
      rw [hm]
      exact List.chain'_pair.mpr (by norm_num)⟩,
   edward_segment_count_concat [1, 2, 3] [0, 1, 2] [0, 2]
     (by decide)
     (by
      have hm : ([(0 : ℚ), 2] : List ℚ).map (argminAbs [0, 1, 2]) = [0, 2] := by
        norm_num [argminAbs, argminAbsAux, rabs]
      rw [hm]
      exact List.chain'_pair.mpr (by norm_num))⟩

/-- C8: the Segmenter on the docstring's own example
`y = [1,1,1,2,2,2,2,3,3,3]`, `t = [1..10]`, `t_c = [3, 7.5]` returns
`[[1,1,1],[2,2,2,2],[3,3,3]]`, not the documented
`[[1,1,1],[2,2,2,2,3],[3,3]]`: at the tie `|7 - 7.5| = |8 - 7.5|`,
`argmin` snaps to the earlier sample. -/
theorem edward_docstring_example :
    EdwardRun [1, 1, 1, 2, 2, 2, 2, 3, 3, 3] [1, 2, 3, 4, 5, 6, 7, 8, 9, 10]
        [3, 15/2] =
      [[1, 1, 1], [2, 2, 2, 2], [3, 3, 3]] ∧
    EdwardRun [1, 1, 1, 2, 2, 2, 2, 3, 3, 3] [1, 2, 3, 4, 5, 6, 7, 8, 9, 10]
        [3, 15/2] ≠
      [[1, 1, 1], [2, 2, 2, 2, 3], [3, 3]] := by
  norm_num [EdwardRun, Edward, argminAbs, argminAbsAux, rabs, pySlice]

/-- C9: the array-aware Segmenter fails with the out-of-bounds error
exactly when some cut point lies outside `[t[0], t[-1]]`: if some cut is
outside, the call errors; if every cut is inside, it returns a result. -/
theorem edward_checked_out_of_bounds (y t tc : List ℚ) (_ht : t ≠ []) :
    ((∃ c ∈ tc, c < t.headD 0 ∨ t.getLastD 0 < c) →
      exceptOk (EdwardCheckedRun y t tc) = false) ∧
    ((∀ c ∈ tc, t.headD 0 ≤ c ∧ c ≤ t.getLastD 0) →
      exceptOk (EdwardCheckedRun y t tc) = true) :=
  ⟨fun h => edward_checked_err y t tc 0 h,
   fun h => edward_checked_ok y t tc 0 h⟩

/-- C9 (witness). -/
theorem edward_checked_out_of_bounds_witness :
    (([(1 : ℚ), 2] : List ℚ) ≠ []) ∧
    exceptOk (EdwardCheckedRun [5, 6] [1, 2] [10]) = false ∧
    exceptOk (EdwardCheckedRun [5, 6] [1, 2] [2]) = true :=
  ⟨by decide,
   (edward_checked_out_of_bounds [5, 6] [1, 2] [10] (by decide)).1
     ⟨10, by decide, by decide⟩,
   (edward_checked_out_of_bounds [5, 6] [1, 2] [2] (by decide)).2
     (by decide)⟩

/-- C4: every call of the csv-variant Resampler with `end_time <=
begin_time` fails with the invalid-window error instead of returning a
result. -/
theorem downsample_csv_invalid_window (b e step sigma : ℚ) (t s : List ℚ)
    (h : e ≤ b) :
    downsample_timeseries_csv b e t s step sigma =
      .error "end_time must be greater than begin_time" := by
  unfold downsample_timeseries_csv
  rw [if_pos h]

/-- C4 (witness). -/
theorem downsample_csv_invalid_window_witness :
    ((1 : ℚ) ≤ 1) ∧
    downsample_timeseries_csv 1 1 [0] [0] 1 2 =
      .error "end_time must be greater than begin_time" :=
  ⟨le_refl 1, downsample_csv_invalid_window 1 1 1 2 [0] [0] (le_refl 1)⟩

/-- C5: a valid window containing no sample of `time` succeeds and returns
the requested `np.arange` grid with an all-zero signal of the same
length. -/
theorem downsample_csv_empty_window_zeros (b e step sigma : ℚ)
    (t s : List ℚ) (hbe : b < e) (hempty : filterInRange b e t s = []) :
    downsample_timeseries_csv b e t s step sigma =
      .ok (np_arange b e step, List.replicate (np_arange b e step).length 0) := by
  unfold downsample_timeseries_csv
  rw [if_neg (not_le.mpr hbe), hempty]
  rfl

/-- C5 (witness). -/
theorem downsample_csv_empty_window_zeros_witness :
    ((0 : ℚ) < 1 ∧ filterInRange 0 1 [5] [7] = []) ∧
    downsample_timeseries_csv 0 1 [5] [7] 1 2 =
      .ok (np_arange 0 1 1, List.replicate (np_arange 0 1 1).length 0) :=
  ⟨⟨by norm_num, by decide⟩,
   downsample_csv_empty_window_zeros 0 1 1 2 [5] [7] (by norm_num) (by decide)⟩

/-- C3 (counterexample): in the binned variant the output lengths can
differ: with `begin = 0`, `end = 1`, `length = 2` and a single sample at
`1/4`, `new_time` has 2 entries but `new_signal` only 1 (the second bin is
empty and `groupby` drops it). -/
theorem downsample_bins_length_mismatch :
    (downsample_timeseries_bins 0 1 [1/4] [5] 2).1.length = 2 ∧
    (downsample_timeseries_bins 0 1 [1/4] [5] 2).2.length = 1 := by
  norm_num [downsample_timeseries_bins, np_linspace, filterInRange, binIndex,
    listMean, List.range_succ]

/-- C3 (amended): `new_time` is a deterministic function of
`(begin, end, step_or_length)` alone in both variants (`np.linspace` for
the binned variant, `np.arange` for the interpolation variant), and in the
interpolation (csv) variant `new_time` and `new_signal` always have equal
length; the binned variant can return fewer signal values than grid points
when some bins are empty. -/
theorem resampler_time_deterministic (b e step sigma : ℚ) (len : ℕ)
    (t s t2 s2 : List ℚ) (r : List ℚ × List ℝ)
    (hr : downsample_timeseries_csv b e t s step sigma = .ok r) :
    (downsample_timeseries_bins b e t s len).1 = np_linspace b e len ∧
    (downsample_timeseries_bins b e t s len).1 =
      (downsample_timeseries_bins b e t2 s2 len).1 ∧
    r.1 = np_arange b e step ∧
    r.1.length = r.2.length := by
  have h := downsample_csv_ok_shape b e step sigma t s r hr
  exact ⟨rfl, rfl, h.1, h.2⟩

/-- C3 (witness). -/
theorem resampler_time_deterministic_witness :
    (downsample_timeseries_csv 0 1 [] [] 1 2 =
      .ok (np_arange 0 1 1, List.replicate (np_arange 0 1 1).length 0)) ∧
    ((downsample_timeseries_bins 0 1 [] [] 3).1 = np_linspace 0 1 3 ∧
      (downsample_timeseries_bins 0 1 [] [] 3).1 =
        (downsample_timeseries_bins 0 1 [2] [9] 3).1 ∧
      (np_arange 0 1 1, List.replicate (np_arange 0 1 1).length (0 : ℝ)).1 =
        np_arange 0 1 1 ∧
      (np_arange 0 1 1, List.replicate (np_arange 0 1 1).length (0 : ℝ)).1.length =
        (np_arange 0 1 1, List.replicate (np_arange 0 1 1).length (0 : ℝ)).2.length) :=
  ⟨by unfold downsample_timeseries_csv; norm_num [filterInRange],
   resampler_time_deterministic 0 1 1 2 3 [] [] [2] [9] _
     (by unfold downsample_timeseries_csv; norm_num [filterInRange])⟩

/-- Every element of `np.arange(b, e, step)` with a positive step lies in
the half-open interval `[b, e)`. -/
theorem np_arange_mem_bounds (b e step : ℚ) (hstep : 0 < step) :
    ∀ x ∈ np_arange b e step, b ≤ x ∧ x < e := by
  intro x hx
  unfold np_arange at hx
  rcases List.mem_map.mp hx with ⟨i, hi, rfl⟩
  rw [List.mem_range] at hi
  constructor
  · have h0 : (0 : ℚ) ≤ (i : ℚ) * step := mul_nonneg (by positivity) hstep.le
    linarith
  · have hceil : (i : ℤ) < ⌈(e - b) / step⌉ := Int.lt_toNat.mp hi
    have h2 : ((i : ℚ) + 1) ≤ (⌈(e - b) / step⌉ : ℚ) := by
      exact_mod_cast Int.add_one_le_iff.mpr hceil
    have h3 : (⌈(e - b) / step⌉ : ℚ) < (e - b) / step + 1 :=
      Int.ceil_lt_add_one _
    have h4 : (i : ℚ) < (e - b) / step := by linarith
    have h5 : (i : ℚ) * step < e - b := (lt_div_iff₀ hstep).mp h4
    linarith

/-- The merge loop body never raises (its resample window is valid). -/
theorem downsample_merge_step_isOk (d step : ℚ) (shot : Shot)
    (merged : Frame) (key : String) :
    exceptOk (downsample_merge_step d step shot merged key) = true := by
  unfold downsample_merge_step
  split
  · rfl
  · rename_i ch hlook
    split
    · rfl
    · split
      · rename_i msg heq
        have hok := downsample_csv_isOk (d - 1) (d + 5) step 2 ch.time ch.signal
          (by linarith)
        rw [heq] at hok
        exact absurd hok (by simp [exceptOk])
      · rfl

/-- The whole merge fold never raises. -/
theorem downsample_merge_fold_isOk (d step : ℚ) (shot : Shot) :
    ∀ (keys : List String) (init : Frame),
      exceptOk (keys.foldlM (downsample_merge_step d step shot) init) = true := by
  intro keys
  induction keys with
  | nil => intro init; rfl
  | cons k ks ih =>
      intro init
      rw [List.foldlM_cons]
      have h := downsample_merge_step_isOk d step shot init k
      cases hstep : downsample_merge_step d step shot init k with
      | error msg => rw [hstep] at h; exact absurd h (by simp [exceptOk])
      | ok m => simpa [hstep] using ih m

/-- Every row time of the loop body's output comes from the shared
`np.arange(d - 1, d + 5, step)` grid, given that the accumulator already
satisfies this. -/
theorem downsample_merge_step_times (d step : ℚ) (shot : Shot)
    (merged F : Frame) (key : String)
    (hm : ∀ r ∈ merged, r.1 ∈ np_arange (d - 1) (d + 5) step)
    (h : downsample_merge_step d step shot merged key = .ok F) :
    ∀ r ∈ F, r.1 ∈ np_arange (d - 1) (d + 5) step := by
  unfold downsample_merge_step at h
  split at h
  · cases h; exact hm
  · rename_i ch hlook
    split at h
    · cases h; exact hm
    · split at h
      · cases h
      · rename_i r heq
        have hshape := downsample_csv_ok_shape (d - 1) (d + 5) step 2
          ch.time ch.signal r heq
        cases h
        have hzip : ∀ q ∈ (r.1.zip r.2).map
            (fun p => (p.1, ([p.2] : List ℝ))),
            q.1 ∈ np_arange (d - 1) (d + 5) step := by
          intro q hq
          rcases List.mem_map.mp hq with ⟨p, hp, rfl⟩
          obtain ⟨a, c⟩ := p
          have := (List.of_mem_zip hp).1
          rw [hshape.1] at this
          exact this
        split
        · exact hzip
        · intro q hq
          rcases List.mem_flatMap.mp hq with ⟨a, ha, hq2⟩
          rcases List.mem_map.mp hq2 with ⟨p2, _, rfl⟩
          exact hm a ha

/-- The fold version of the previous lemma. -/
theorem downsample_merge_fold_times (d step : ℚ) (shot : Shot) :
    ∀ (keys : List String) (init F : Frame),
      (∀ r ∈ init, r.1 ∈ np_arange (d - 1) (d + 5) step) →
      keys.foldlM (downsample_merge_step d step shot) init = .ok F →
      ∀ r ∈ F, r.1 ∈ np_arange (d - 1) (d + 5) step := by
  intro keys
  induction keys with
  | nil =>
      intro init F hinit h
      cases h
      exact hinit
  | cons k ks ih =>
      intro init F hinit h
      rw [List.foldlM_cons] at h
      cases hstep : downsample_merge_step d step shot init k with
      | error msg => rw [hstep] at h; cases h
      | ok m =>
          rw [hstep] at h
          exact ih m F
            (downsample_merge_step_times d step shot init m k hinit hstep) h

/-- C6: a shot whose disruption time is NaN (`none`) or precedes the end
of its ramp-up interval makes the Shot Merger return an empty table
without raising; every other shot proceeds through the resample-and-merge
loop and also returns without raising. -/
theorem merge_invalid_disruption (shot : Shot) (keys : List String)
    (step : ℚ) :
    (shot.disr_ipla_td = none →
      downsample_and_merge shot keys step = .ok []) ∧
    (∀ d : ℚ, shot.disr_ipla_td = some d → d < shot.Ramp_up.2 →
      downsample_and_merge shot keys step = .ok []) ∧
    (∀ d : ℚ, shot.disr_ipla_td = some d → shot.Ramp_up.2 ≤ d →
      exceptOk (downsample_and_merge shot keys step) = true) := by
  refine ⟨?_, ?_, ?_⟩
  · intro h
    unfold downsample_and_merge
    rw [h]
  · intro d hd hlt
    unfold downsample_and_merge
    rw [hd]
    simp only [if_pos hlt]
  · intro d hd hge
    unfold downsample_and_merge
    rw [hd]
    simp only [if_neg (not_lt.mpr hge)]
    exact downsample_merge_fold_isOk d step shot keys []

/-- C6 (witness). -/
theorem merge_invalid_disruption_witness :
    (downsample_and_merge ⟨none, (0, 1), []⟩ ["IPLA"] 1 = .ok []) ∧
    (downsample_and_merge ⟨some 0, (0, 1), []⟩ ["IPLA"] 1 = .ok []) ∧
    (exceptOk (downsample_and_merge
        ⟨some 2, (0, 1), [("IPLA", ⟨[0], [1]⟩)]⟩ ["IPLA"] 1) = true) :=
  ⟨(merge_invalid_disruption ⟨none, (0, 1), []⟩ ["IPLA"] 1).1 rfl,
   (merge_invalid_disruption ⟨some 0, (0, 1), []⟩ ["IPLA"] 1).2.1 0 rfl
     (by norm_num),
   (merge_invalid_disruption ⟨some 2, (0, 1), [("IPLA", ⟨[0], [1]⟩)]⟩
       ["IPLA"] 1).2.2 2 rfl (by norm_num)⟩

/-- C10: for a positive step the resampling grid is half-open: every grid
point `x` satisfies `begin_time ≤ x < end_time`, `end_time` itself is
never a grid point, and consequently the merged per-shot table of a shot
with disruption time `d` never contains a row at time `d + 5`. -/
theorem grid_half_open (b e step : ℚ) (hstep : 0 < step) :
    (∀ x ∈ np_arange b e step, b ≤ x ∧ x < e) ∧
    e ∉ np_arange b e step ∧
    (∀ (shot : Shot) (keys : List String) (d : ℚ) (F : Frame),
      shot.disr_ipla_td = some d →
      downsample_and_merge shot keys step = .ok F →
      ∀ r ∈ F, r.1 ≠ d + 5) := by
  refine ⟨np_arange_mem_bounds b e step hstep, ?_, ?_⟩
  · intro he
    exact absurd (np_arange_mem_bounds b e step hstep e he).2 (lt_irrefl e)
  · intro shot keys d F hd hF r hr
    unfold downsample_and_merge at hF
    rw [hd] at hF
    have hF' : (if d < shot.Ramp_up.2 then Except.ok []
        else List.foldlM (downsample_merge_step d step shot) [] keys) =
        Except.ok F := hF
    clear hF
    split_ifs at hF' with hlt
    · cases hF'
      cases hr
    · have hmem := downsample_merge_fold_times d step shot keys [] F
        (by intro q hq; cases hq) hF' r hr
      have hb := np_arange_mem_bounds (d - 1) (d + 5) step hstep r.1 hmem
      exact ne_of_lt hb.2

/-- C10 (witness). -/
theorem grid_half_open_witness :
    ((0 : ℚ) < 1) ∧
    ((∀ x ∈ np_arange 0 2 1, (0 : ℚ) ≤ x ∧ x < 2) ∧
      (2 : ℚ) ∉ np_arange 0 2 1 ∧
      (∀ (shot : Shot) (keys : List String) (d : ℚ) (F : Frame),
        shot.disr_ipla_td = some d →
        downsample_and_merge shot keys 1 = .ok F →
        ∀ r ∈ F, r.1 ≠ d + 5)) :=
  ⟨by norm_num, grid_half_open 0 2 1 (by norm_num)⟩

/-- `np.interp` evaluated exactly at the `j`-th node of a strictly
increasing node list returns that node's value. -/
theorem np_interp_node :
    ∀ (l : List (ℚ × ℚ)), (l.map Prod.fst).Pairwise (· < ·) →
      ∀ (j : ℕ) (hj : j < l.length),
        np_interp (l.get ⟨j, hj⟩).1 l = (l.get ⟨j, hj⟩).2 := by
  intro l
  induction l with
  | nil => intro _ j hj; exact absurd hj (Nat.not_lt_zero j)
  | cons p0 tl ih =>
      intro hs j hj
      cases tl with
      | nil =>
          have hj0 : j = 0 := Nat.lt_one_iff.mp (by simpa using hj)
          subst hj0
          obtain ⟨x0, f0⟩ := p0
          rfl
      | cons p1 rest =>
          rw [List.map_cons] at hs
          have hcons := List.pairwise_cons.mp hs
          have h01 : p0.1 < p1.1 := hcons.1 p1.1 (by simp)
          have htail : ((p1 :: rest).map Prod.fst).Pairwise (· < ·) := hcons.2
          cases j with
          | zero =>
              obtain ⟨x0, f0⟩ := p0
              obtain ⟨x1, f1⟩ := p1
              show np_interp x0 ((x0, f0) :: (x1, f1) :: rest) = f0
              simp only [np_interp]
              rw [if_neg (lt_irrefl x0), if_pos (le_of_lt h01)]
              simp
          | succ k =>
              have hk : k < (p1 :: rest).length := by simpa using hj
              have hget : (p0 :: p1 :: rest).get ⟨k + 1, hj⟩ =
                  (p1 :: rest).get ⟨k, hk⟩ := rfl
              rw [hget]
              cases k with
              | zero =>
                  obtain ⟨x0, f0⟩ := p0
                  obtain ⟨x1, f1⟩ := p1
                  show np_interp x1 ((x0, f0) :: (x1, f1) :: rest) = f1
                  simp only [np_interp]
                  rw [if_neg (not_lt.mpr (le_of_lt h01)), if_pos (le_refl x1)]
                  have hne : x1 - x0 ≠ 0 := sub_ne_zero.mpr (ne_of_gt h01)
                  field_simp
              | succ m =>
                  have hm : m < rest.length := by simpa using hk
                  have hgm : (p1 :: rest).get ⟨m + 1, hk⟩ =
                      rest.get ⟨m, hm⟩ := rfl
                  have hmem : (rest.get ⟨m, hm⟩).1 ∈ rest.map Prod.fst :=
                    List.mem_map_of_mem Prod.fst (rest.get_mem m hm)
                  rw [List.map_cons] at htail
                  have h1x : p1.1 < (rest.get ⟨m, hm⟩).1 :=
                    (List.pairwise_cons.mp htail).1 _ hmem
                  have h0x : p0.1 < (rest.get ⟨m, hm⟩).1 := lt_trans h01 h1x
                  rw [hgm]
                  obtain ⟨x0, f0⟩ := p0
                  obtain ⟨x1, f1⟩ := p1
                  show np_interp (rest.get ⟨m, hm⟩).1
                      ((x0, f0) :: (x1, f1) :: rest) = (rest.get ⟨m, hm⟩).2
                  simp only [np_interp]
                  rw [if_neg (not_lt.mpr (le_of_lt h0x)),
                    if_neg (not_le.mpr h1x)]
                  have hrec := ih (List.pairwise_cons.mpr
                    ⟨(List.pairwise_cons.mp htail).1,
                     (List.pairwise_cons.mp htail).2⟩) (m + 1) (by simpa using hk)
                  rw [hgm] at hrec
                  exact hrec

/-- Filtering a strictly increasing series keeps its times strictly
increasing. -/
theorem filterInRange_sorted (b e : ℚ) (t s : List ℚ)
    (hlen : t.length = s.length) (hsort : t.Pairwise (· < ·)) :
    ((filterInRange b e t s).map Prod.fst).Pairwise (· < ·) := by
  have hsub : List.Sublist ((filterInRange b e t s).map Prod.fst)
      ((t.zip s).map Prod.fst) :=
    (List.filter_sublist _).map Prod.fst
  have hzip : (t.zip s).map Prod.fst = t := List.map_fst_zip t s (le_of_eq hlen)
  rw [hzip] at hsub
  exact hsort.sublist hsub

theorem gaussKernelRaw_pos (sigma : ℚ) (o : ℤ) : 0 < gaussKernelRaw sigma o :=
  Real.exp_pos _

theorem gaussZ_pos (sigma : ℚ) : 0 < gaussZ sigma := by
  unfold gaussZ
  apply Finset.sum_pos
  · intro j _
    exact gaussKernelRaw_pos sigma _
  · exact Finset.nonempty_range_iff.mpr (by omega)

theorem gaussWeight_pos (sigma : ℚ) (o : ℤ) : 0 < gaussWeight sigma o :=
  div_pos (gaussKernelRaw_pos sigma o) (gaussZ_pos sigma)

/-- The interpolated values at the counterexample input are nonnegative. -/
theorem cex_getD_nonneg (i : ℕ) :
    (0 : ℝ) ≤ ([0, 1/2, 1, 1] : List ℝ).getD i 0 := by
  match i with
  | 0 => norm_num
  | 1 => norm_num
  | 2 => norm_num
  | 3 => norm_num
  | (n + 4) => simp [List.getD]

/-- The smoothed signal at grid index 0 of the counterexample is strictly
positive: the Gaussian kernel is strictly positive everywhere and the
interpolated value `1` at index 2 is within its reach. -/
theorem gauss_head_pos :
    0 < (gaussian_filter1d 2 [(0 : ℝ), 1/2, 1, 1]).getD 0 0 := by
  have hlw : gaussLw 2 = 8 := by
    have hfl : (⌊(4 : ℚ) * 2 + 1 / 2⌋ : ℤ) = 8 := by norm_num
    unfold gaussLw
    rw [hfl]
    rfl
  have hlen : ([(0 : ℝ), 1/2, 1, 1] : List ℝ).length = 4 := by norm_num
  unfold gaussian_filter1d
  rw [hlen, hlw]
  have hrange : List.range 4 = [0, 1, 2, 3] := by decide
  rw [hrange]
  simp only [List.map_cons, List.map_nil, List.getD_cons_zero]
  apply Finset.sum_pos'
  · intro j _
    exact mul_nonneg (gaussWeight_pos 2 _).le (cex_getD_nonneg _)
  · refine ⟨10, by norm_num, ?_⟩
    have hw := gaussWeight_pos 2 2
    have hcast : ((10 : ℕ) : ℤ) - ((8 : ℕ) : ℤ) = 2 := by norm_num
    rw [hcast]
    have hidx : reflectIdx 4 (((0 : ℕ) : ℤ) + 2) = 2 := by decide
    rw [hidx]
    norm_num [List.getD_cons_succ, List.getD_cons_zero]
    simpa using hw

/-- Full evaluation of the csv-variant Resampler at the counterexample
input: window `[0, 1]`, step `1/4`, samples at `0` and `1/2` with values
`0` and `1`. -/
theorem dcsv_cex_eval :
    downsample_timeseries_csv 0 1 [0, 1/2] [0, 1] (1/4) 2 =
      .ok ([0, 1/4, 1/2, 3/4], gaussian_filter1d 2 [0, 1/2, 1, 1]) := by
  unfold downsample_timeseries_csv
  have h1 : filterInRange 0 1 [0, 1/2] [0, 1] = [(0, 0), (1/2, 1)] := by
    norm_num [filterInRange]
  rw [h1, if_neg (by norm_num : ¬((1 : ℚ) ≤ 0))]
  rw [if_neg (by simp :
    ¬(([((0 : ℚ), (0 : ℚ)), (1/2, 1)] : List (ℚ × ℚ)).isEmpty = true))]
  have h2 : np_arange 0 1 (1/4) = [0, 1/4, 1/2, 3/4] := by
    have hc : (⌈((1 : ℚ) - 0) / (1/4)⌉ : ℤ) = 4 := by norm_num
    unfold np_arange
    rw [hc, show Int.toNat 4 = 4 from rfl]
    norm_num [List.range_succ]
  rw [h2]
  have h3 : ([0, 1/4, 1/2, 3/4] : List ℚ).map
      (fun x => ((np_interp x [(0, 0), (1/2, 1)] : ℚ) : ℝ)) =
      [0, 1/2, 1, 1] := by
    norm_num [np_interp]
  rw [h3]

/-- C1 (counterexample): at `begin = 0`, `end = 1`, `step = 1/4`, samples
`time = [0, 1/2]`, `signal = [0, 1]`, the window is valid and contains
samples; the first grid point `0` coincides with the sample at time `0`
whose signal value is `0`, yet the returned `new_signal[0]` is not `0`:
the Gaussian smoothing pass destroys the interpolation identity. -/
theorem downsample_csv_smoothing_breaks_identity :
    (downsample_timeseries_csv 0 1 [0, 1/2] [0, 1] (1/4) 2).map Prod.fst =
      .ok [0, 1/4, 1/2, 3/4] ∧
    (downsample_timeseries_csv 0 1 [0, 1/2] [0, 1] (1/4) 2).map
        (fun r => r.2.getD 0 0) ≠ .ok (0 : ℝ) := by
  rw [dcsv_cex_eval]
  constructor
  · rfl
  · intro hcontra
    have h0 : (gaussian_filter1d 2 [(0 : ℝ), 1/2, 1, 1]).getD 0 0 = 0 := by
      simpa [Except.map] using hcontra
    exact absurd h0 (ne_of_gt gauss_head_pos)

/-- C1 (amended): for a valid window over a strictly increasing series
with at least one sample in range, the csv-variant Resampler returns the
`np.arange` grid with a signal of that same length, where the signal is
the Gaussian smoothing of the linear interpolation onto the grid; the
interpolation identity holds for the pre-smoothing interpolated values:
at every grid point that coincides with a (filtered) sample time,
`np.interp` returns exactly that sample's signal value. -/
theorem downsample_csv_interp_identity (b e step sigma : ℚ) (t s : List ℚ)
    (hbe : b < e) (hlen : t.length = s.length)
    (hsort : t.Pairwise (· < ·))
    (hne : filterInRange b e t s ≠ []) :
    downsample_timeseries_csv b e t s step sigma =
      .ok (np_arange b e step,
        gaussian_filter1d sigma ((np_arange b e step).map
          (fun x => ((np_interp x (filterInRange b e t s) : ℚ) : ℝ)))) ∧
    (gaussian_filter1d sigma ((np_arange b e step).map
        (fun x => ((np_interp x (filterInRange b e t s) : ℚ) : ℝ)))).length =
      (np_arange b e step).length ∧
    (∀ (i j : ℕ) (hi : i < (np_arange b e step).length)
      (hj : j < (filterInRange b e t s).length),
      (np_arange b e step).get ⟨i, hi⟩ =
        ((filterInRange b e t s).get ⟨j, hj⟩).1 →
      np_interp ((np_arange b e step).get ⟨i, hi⟩) (filterInRange b e t s) =
        ((filterInRange b e t s).get ⟨j, hj⟩).2) := by
  refine ⟨?_, ?_, ?_⟩
  · have hne' : (filterInRange b e t s).isEmpty = false := by
      cases hfp : filterInRange b e t s with
      | nil => exact absurd hfp hne
      | cons a l => rfl
    unfold downsample_timeseries_csv
    rw [if_neg (not_le.mpr hbe), if_neg (by simp [hne'])]
  · rw [gaussian_filter1d_length, List.length_map]
  · intro i j hi hj hcoin
    rw [hcoin]
    exact np_interp_node (filterInRange b e t s)
      (filterInRange_sorted b e t s hlen hsort) j hj

/-- C1 (witness). -/
theorem downsample_csv_interp_identity_witness :
    ((0 : ℚ) < 1 ∧ ([(0 : ℚ)] : List ℚ).length = ([(7 : ℚ)] : List ℚ).length ∧
      ([(0 : ℚ)] : List ℚ).Pairwise (· < ·) ∧
      filterInRange 0 1 [0] [7] ≠ []) ∧
    (downsample_timeseries_csv 0 1 [0] [7] 1 2 =
      .ok (np_arange 0 1 1,
        gaussian_filter1d 2 ((np_arange 0 1 1).map
          (fun x => ((np_interp x (filterInRange 0 1 [0] [7]) : ℚ) : ℝ)))) ∧
    (gaussian_filter1d 2 ((np_arange 0 1 1).map
        (fun x => ((np_interp x (filterInRange 0 1 [0] [7]) : ℚ) : ℝ)))).length =
      (np_arange 0 1 1).length ∧
    (∀ (i j : ℕ) (hi : i < (np_arange 0 1 1).length)
      (hj : j < (filterInRange 0 1 [0] [7]).length),
      (np_arange 0 1 1).get ⟨i, hi⟩ =
        ((filterInRange 0 1 [0] [7]).get ⟨j, hj⟩).1 →
      np_interp ((np_arange 0 1 1).get ⟨i, hi⟩) (filterInRange 0 1 [0] [7]) =
        ((filterInRange 0 1 [0] [7]).get ⟨j, hj⟩).2)) :=
  ⟨⟨by norm_num, rfl, List.pairwise_singleton _ _, by decide⟩,
   downsample_csv_interp_identity 0 1 1 2 [0] [7] (by norm_num) rfl
     (List.pairwise_singleton _ _) (by decide)⟩

end SPC
